import Mathlib

/-!
Verification of the lunch-check acquisition-and-enrichment pipeline.

The definitions below are a shallow embedding of `src/scrape_lunch.py` and
`src/enrich_lunch.py`.  External I/O (HTTP responses, the filesystem) is
passed in as explicit arguments: an HTTP lookup becomes a value describing
the response the Python code would have observed, a file becomes its
contents.  Python strings are Lean `String`s (manipulated as `List Char`),
Python ints are `Int`/`Nat`, and JSON numbers are `ℚ` (the claims never
depend on binary floating-point rounding).  Exception handling becomes
explicit case analysis: each `try`/`except` block is translated branch by
branch, including the partial updates performed before an exception is
raised.
-/

namespace LunchCheck

/-! ## Python string primitives -/

/-- Python `\s` for the ASCII range, as used by `str.strip` and `re`'s
whitespace class. -/
def wsChar (c : Char) : Bool :=
  c = ' ' || c = '\t' || c = '\n' || c = '\r' || c = '\x0b' || c = '\x0c'

/-- Drop leading whitespace (one side of Python `str.strip`). -/
def dropWs : List Char → List Char
  | [] => []
  | c :: cs => if wsChar c then dropWs cs else c :: cs

/-- Python `str.strip()` (ASCII whitespace). -/
def pyStrip (s : String) : String :=
  ⟨(dropWs (dropWs s.data.reverse).reverse)⟩

/-- Python `str.lower()` (ASCII letters; the repository only compares
ASCII keywords). -/
def pyLower (s : String) : String :=
  ⟨s.data.map Char.toLower⟩

/-- Match a literal `pat` at the head of `s`; on success return the rest. -/
def stripLit : List Char → List Char → Option (List Char)
  | [], s => some s
  | _ :: _, [] => none
  | c :: cs, d :: ds => if c = d then stripLit cs ds else none

/-- Leftmost occurrence of the literal `pat` in `s`: returns the text
before the occurrence and the text after it. -/
def findLit (pat : List Char) : List Char → Option (List Char × List Char)
  | [] => none
  | c :: cs =>
    match stripLit pat (c :: cs) with
    | some rest => some ([], rest)
    | none => (findLit pat cs).map (fun p => (c :: p.1, p.2))

/-- Python `needle in hay` for strings. -/
def containsSub (needle hay : String) : Bool :=
  needle.data = [] || (findLit needle.data hay.data).isSome

/-- `stripLit` only succeeds on a literal prefix. -/
theorem stripLit_eq_some {pat s r : List Char} (h : stripLit pat s = some r) :
    s = pat ++ r := by
  induction pat generalizing s with
  | nil => simpa [stripLit, eq_comm] using h.symm
  | cons c cs ih =>
    cases s with
    | nil => simp [stripLit] at h
    | cons d ds =>
      by_cases hc : c = d
      · subst hc
        simp only [stripLit, if_pos rfl] at h
        simpa using ih h
      · simp [stripLit, hc] at h

/-- A successful literal match consumes `pat`. -/
theorem stripLit_length {pat s r : List Char} (h : stripLit pat s = some r) :
    r.length + pat.length = s.length := by
  have := stripLit_eq_some h
  subst this
  simp [Nat.add_comm]

/-- `findLit` decomposes the string around the occurrence. -/
theorem findLit_eq_some {pat s pre rest : List Char}
    (h : findLit pat s = some (pre, rest)) : s = pre ++ pat ++ rest := by
  induction s generalizing pre rest with
  | nil => simp [findLit] at h
  | cons c cs ih =>
    simp only [findLit] at h
    cases hm : stripLit pat (c :: cs) with
    | some r =>
      rw [hm] at h
      obtain ⟨rfl, rfl⟩ : pre = [] ∧ r = rest := by
        simpa using h
      simpa using stripLit_eq_some hm
    | none =>
      rw [hm] at h
      cases hf : findLit pat cs with
      | none => rw [hf] at h; simp at h
      | some p =>
        obtain ⟨p1, p2⟩ := p
        rw [hf] at h
        obtain ⟨rfl, rfl⟩ : pre = c :: p1 ∧ rest = p2 := by
          simpa using h.symm
        have := ih hf
        simp [this]

/-- Matching a nonempty literal strictly shrinks the remainder. -/
theorem findLit_rest_length {pat s pre rest : List Char} (hp : pat ≠ [])
    (h : findLit pat s = some (pre, rest)) : rest.length < s.length := by
  have hd := findLit_eq_some h
  subst hd
  have : 0 < pat.length := List.length_pos.mpr hp
  simp only [List.length_append]
  omega

/-- Worker for `replaceAll`, structurally recursive on a fuel bound.
`s.length` fuel always suffices for a nonempty pattern because every
replacement step strictly shrinks the remainder
(`findLit_rest_length`). -/
def replaceAllAux (pat repl : List Char) : Nat → List Char → List Char
  | 0, s => s
  | Nat.succ fuel, s =>
    match findLit pat s with
    | none => s
    | some (pre, rest) => pre ++ repl ++ replaceAllAux pat repl fuel rest

/-- Python `str.replace`: replace every (leftmost-first, non-overlapping)
occurrence of `pat` by `repl`.  The empty-pattern case (where Python
interleaves `repl` everywhere) never arises in the pipeline and is mapped
to the identity. -/
def replaceAll (pat repl : List Char) (s : List Char) : List Char :=
  if pat = [] then s else replaceAllAux pat repl s.length s

/-- String-level wrapper for `replaceAll`. -/
def pyReplace (s pat repl : String) : String :=
  ⟨replaceAll pat.data repl.data s.data⟩

/-- Python truthiness of an optional string (`None` and `""` are falsy). -/
def pyTruthyStr : Option String → Bool
  | none => false
  | some s => s ≠ ""

/-- Python truthiness of an optional number (`None` and `0.0` are falsy). -/
def pyTruthyNum : Option ℚ → Bool
  | none => false
  | some q => q ≠ 0

/-- Python `int(x)` on a float value: truncation toward zero. -/
def pyInt (q : ℚ) : ℤ :=
  if 0 ≤ q then ⌊q⌋ else ⌈q⌉

/-- Python `str.capitalize()`: first character upper-cased, the rest
lower-cased (ASCII behaviour suffices for the cuisine labels). -/
def pyCapitalize (s : String) : String :=
  match s.data with
  | [] => ""
  | c :: cs => ⟨c.toUpper :: cs.map Char.toLower⟩

/-- Python `os.path.basename`: everything after the last `/`. -/
def pyBasename (p : String) : String :=
  ⟨((p.data.reverse.takeWhile (fun c => c ≠ '/')).reverse)⟩

/-! ## Source Reader: local-file mode (`enrich_lunch.py`)

`find_input_file` scans the `glob` result (a list of full paths) and
`read_csv` parses the selected file.  The CSV text layer is embedded as a
stream of parse events: each event is either a successfully decoded row
(`csv.DictReader` yields an ordered mapping of column name to cell text)
or the point at which the underlying iteration raises (a decoding error or
`csv.Error`), after which no further rows are produced. -/

/-- A parsed CSV row: ordered column-name/value pairs (`RawRow`). -/
abbrev RawRow := List (String × String)

/-- One step of iterating `csv.DictReader` over the input file. -/
inductive CsvEvent where
  | row (r : RawRow)
  | err
deriving DecidableEq

/-- `enrich_lunch.find_input_file`, applied to the `glob.glob` result
(full paths).  The first loop returns the first candidate whose lowered
basename contains `"lunch"` or `"export"`; the fallback loop returns the
first candidate whose lowered full path does not contain `"mock"`. -/
def find_input_file (candidates : List String) : Option String :=
  match candidates.find? (fun f =>
      containsSub "lunch" (pyLower (pyBasename f)) ||
      containsSub "export" (pyLower (pyBasename f))) with
  | some f => some f
  | none => candidates.find? (fun f => !containsSub "mock" (pyLower f))

/-- `enrich_lunch.read_csv`: rows are appended one by one; the first
iteration error is caught by the surrounding `except`, which returns the
rows accumulated so far. -/
def read_csv : List CsvEvent → List RawRow
  | [] => []
  | CsvEvent.row r :: rest => r :: read_csv rest
  | CsvEvent.err :: _ => []

/-- Whether a parse event is a successfully decoded row. -/
def isRowEvent : CsvEvent → Bool
  | CsvEvent.row _ => true
  | CsvEvent.err => false

/-- The row carried by a parse event, if any. -/
def eventRow : CsvEvent → Option RawRow
  | CsvEvent.row r => some r
  | CsvEvent.err => none

/-! ## External lookups

A geocoding attempt is embedded as a `GeoOutcome`: either the request (or
response decoding attempted before the status check) raised, or a response
with a status code arrived.  For a 200 response, `body = none` means
`.json()` / `['features']` raised (malformed payload); otherwise the
feature list is available.  Routing (OSRM) is embedded likewise. -/

/-- `features[i]` of the Photon response: coordinate list (the endpoint
returns `[lon, lat]`) plus the two classification properties. -/
structure GeoFeature where
  coordinates : List ℚ
  cuisine : Option String
  osm_value : Option String

/-- A decoded Photon payload. -/
structure GeoBody where
  features : List GeoFeature

/-- Outcome of one `requests.get` against the geocoding endpoint. -/
inductive GeoOutcome where
  | err
  | resp (status : Nat) (body : Option GeoBody)

/-- A decoded OSRM payload together with the HTTP status; `routes` lists
the durations (seconds) of the returned routes. -/
structure OsrmResponse where
  status : Nat
  code : String
  routes : List ℚ

/-- `enrich_lunch.geocode_address`: on HTTP 200 with a truthy feature list
return `(float(coords[1]), float(coords[0]))`, i.e. latitude first;
every failure path (exception, non-200, malformed payload, no features,
short coordinate list) returns `(None, None)`. -/
def geocode_address (g : GeoOutcome) : Option ℚ × Option ℚ :=
  match g with
  | GeoOutcome.err => (none, none)
  | GeoOutcome.resp status body =>
    if status = 200 then
      match body with
      | none => (none, none)
      | some b =>
        match b.features with
        | [] => (none, none)
        | f :: _ =>
          match f.coordinates with
          | c0 :: c1 :: _ => (some c1, some c0)
          | _ => (none, none)
    else (none, none)

/-- `enrich_lunch.get_walking_time`: `None` coordinates short-circuit to
`("N/A", 999)`; a 200 response with `code == 'Ok'` and a truthy route list
yields `int(duration / 60)` minutes and the `"N min"` display; every other
path falls through to `("N/A", 999)`. -/
def get_walking_time (start_coords end_coords : Option (ℚ × ℚ))
    (resp : Option OsrmResponse) : String × ℤ :=
  match start_coords, end_coords with
  | some _, some _ =>
    (match resp with
     | some r =>
       if r.status = 200 then
         match r.routes with
         | d :: _ =>
           if r.code = "Ok" then
             (toString (pyInt (d / 60)) ++ " min", pyInt (d / 60))
           else ("N/A", 999)
         | [] => ("N/A", 999)
       else ("N/A", 999)
     | none => ("N/A", 999))
  | _, _ => ("N/A", 999)

/-! ## Source Reader: remote-scrape mode (`scrape_lunch.py`)

`scrape_data` extracts five parallel arrays from the postback HTML and zips
`min(len(names), len(addrs), len(zips), len(cities))` of them into records,
then enriches each record via one geocoding lookup.  The network is
embedded as a per-index oracle of `GeoOutcome`s (the lookups happen in
list order, one per record). -/

/-- A record built by `scrape_data` (the `item` dict). -/
structure ScrapeItem where
  Restaurant : String
  Adresse : String
  PLZ : String
  Ort : String
  Website : String
  cuisine : Option String
  lat : Option ℚ
  lon : Option ℚ
  walkingTime : ℤ
deriving DecidableEq

/-- The uninformative `osm_value` tags that never become a cuisine. -/
def genericOsmValues : List String := ["yes", "restaurant", "fast_food", "cafe", "bar"]

/-- Cuisine classification from the first feature's properties:
`props.get('cuisine')` if truthy, else a non-generic truthy `osm_value`,
else the fixed default. -/
def scrapeCuisine (f : GeoFeature) : String :=
  let c1 := f.cuisine
  let c2 :=
    if pyTruthyStr c1 then c1
    else
      match f.osm_value with
      | some ov => if ov ≠ "" ∧ ov ∉ genericOsmValues then some ov else c1
      | none => c1
  match c2 with
  | some v => if v ≠ "" then pyCapitalize v else "International"
  | none => "International"

/-- The enrichment `try` block of `scrape_data`, including the partial
`lon`/`lat` updates performed before an `IndexError` on a short coordinate
list reaches the `except` handler (which sets the default cuisine), and
the non-200 path on which nothing at all is assigned. -/
def scrapeGeo (item0 : ScrapeItem) (g : GeoOutcome) : ScrapeItem :=
  match g with
  | GeoOutcome.err => { item0 with cuisine := some "International" }
  | GeoOutcome.resp status body =>
    if status = 200 then
      match body with
      | none => { item0 with cuisine := some "International" }
      | some b =>
        match b.features with
        | [] => { item0 with cuisine := some "International" }
        | f :: _ =>
          match f.coordinates with
          | [] => { item0 with cuisine := some "International" }
          | [c0] => { item0 with lon := some c0, cuisine := some "International" }
          | c0 :: c1 :: _ =>
            { item0 with lon := some c0, lat := some c1,
                         cuisine := some (scrapeCuisine f) }
    else item0

/-- The `item` dict as first constructed by `scrape_data` (fields
stripped, enrichment fields at their initial values, `walkingTime`
initialised to the sentinel). -/
def mkScrapeItem (nm ad pz ort ws : String) : ScrapeItem :=
  { Restaurant := pyStrip nm
    Adresse := pyStrip ad
    PLZ := pyStrip pz
    Ort := pyStrip ort
    Website := pyStrip ws
    cuisine := none
    lat := none
    lon := none
    walkingTime := 999 }

/-- The extraction-and-enrichment loop of `scrape_data`: zip
`min(len(names), len(addrs), len(zips), len(cities))` rows, pad a short
`urls` array with `""`, discard `javascript:` pseudo-links, enrich each
row through its geocoding outcome. -/
def scrape_extract (names addrs zips cities urls : List String)
    (geo : Nat → GeoOutcome) : List ScrapeItem :=
  let min_len := min (min names.length addrs.length) (min zips.length cities.length)
  (List.range min_len).map (fun i =>
    let website0 := urls.getD i ""
    let website := if containsSub "javascript:" website0 then "" else website0
    scrapeGeo
      (mkScrapeItem (names.getD i "") (addrs.getD i "") (zips.getD i "")
        (cities.getD i "") website)
      (geo i))

/-! ## Enrichment Engine: local-file mode (`enrich_lunch.main`) -/

/-- `'A'..'F'`/digit for percent-encoding. -/
def hexDigit (n : Nat) : Char :=
  if n < 10 then Char.ofNat ('0'.toNat + n) else Char.ofNat ('A'.toNat + n - 10)

/-- Characters `urllib.parse.quote` leaves unescaped (default `safe='/'`). -/
def quoteSafe (c : Char) : Bool :=
  c.isAlphanum || c = '_' || c = '.' || c = '-' || c = '~' || c = '/'

/-- `urllib.parse.quote` with the default safe set, for ASCII text
(non-ASCII text is percent-encoded per UTF-8 byte by Python; the claims
never inspect the encoded bytes). -/
def pyQuote (s : String) : String :=
  ⟨(s.data.map (fun c =>
      if quoteSafe c then [c]
      else ['%', hexDigit (c.toNat / 16 % 16), hexDigit (c.toNat % 16)])).flatten⟩

/-- Dictionary lookup with default, Python `dict.get(k, d)`. -/
def rowGet (row : RawRow) (k d : String) : String :=
  match row.find? (fun kv => kv.1 = k) with
  | some kv => kv.2
  | none => d

/-- The fixed origin (Paradeplatz) of `enrich_lunch.main`. -/
def userCoords : ℚ × ℚ := (47.3696, 8.5380)

/-- The free-text geocoding query `f"{Adresse}, {PLZ} {Ort}"` built per
row (the oracle models the response to this query). -/
def localAddress (row : RawRow) : String :=
  rowGet row "Adresse" "" ++ ", " ++ rowGet row "PLZ" "" ++ " " ++ rowGet row "Ort" ""

/-- A row after the enrichment loop of `enrich_lunch.main`. -/
structure EnrichedItem where
  row : RawRow
  walking_time : String
  walking_time_raw : ℤ
  maps_url : String
deriving DecidableEq

/-- One iteration of the enrichment loop in `enrich_lunch.main`: geocode,
then (only when `lat and lon` is truthy, i.e. both present and nonzero)
the routing lookup; otherwise the `"?"`/sentinel fallback; the maps link
is always computed. -/
def localEnrich (row : RawRow) (g : GeoOutcome)
    (o : Option OsrmResponse) : EnrichedItem :=
  let dest := rowGet row "Adresse" "" ++ ", " ++ rowGet row "Ort" ""
  let murl := "https://www.google.com/maps/dir/?api=1&destination=" ++ pyQuote dest
  match geocode_address g with
  | (some la, some lo) =>
    if la ≠ 0 ∧ lo ≠ 0 then
      let wt := get_walking_time (some userCoords) (some (la, lo)) o
      { row := row, walking_time := wt.1, walking_time_raw := wt.2, maps_url := murl }
    else
      { row := row, walking_time := "?", walking_time_raw := 999, maps_url := murl }
  | _ =>
    { row := row, walking_time := "?", walking_time_raw := 999, maps_url := murl }

/-- `enrich_lunch.LIMIT`. -/
def LIMIT : Nat := 50

/-- The data path of `enrich_lunch.main` after a file was found: parse,
truncate to `LIMIT`, enrich each remaining row in order. -/
def mainProcess (evs : List CsvEvent) (g : Nat → GeoOutcome)
    (o : Nat → Option OsrmResponse) : List EnrichedItem :=
  ((read_csv evs).take LIMIT).mapIdx (fun i r => localEnrich r (g i) (o i))

/-! ## Template Renderer (`enrich_lunch.render_template`) -/

/-- The loop start marker. -/
def startTag : String := "\x7b% for item in items %\x7d"

/-- The loop end marker. -/
def endTag : String := "\x7b% endfor %\x7d"

/-- Python `a, b = s.split(sep)`: succeeds only when `sep` occurs exactly
once (otherwise the unpacking raises `ValueError`, caught by the
surrounding handler). -/
def pySplit2 (s sep : String) : Option (String × String) :=
  match findLit sep.data s.data with
  | none => none
  | some (pre, rest) =>
    if (findLit sep.data rest).isSome then none else some (⟨pre⟩, ⟨rest⟩)

/-- The keys substituted from the enrichment fields, skipped when the
remaining row keys are substituted. -/
def specialKeys : List String := ["walking_time", "walking_time_raw", "maps_url"]

/-- Rendering of one loop-body copy for one item. -/
def renderItem (loopContent : String) (it : EnrichedItem) : String :=
  let h1 := pyReplace loopContent "\x7b\x7b item.walking_time \x7d\x7d" it.walking_time
  let h2 := pyReplace h1 "\x7b\x7b item.walking_time_raw \x7d\x7d" (toString it.walking_time_raw)
  let h3 := pyReplace h2 "\x7b\x7b item.maps_url \x7d\x7d" it.maps_url
  it.row.foldl (fun acc kv =>
    if kv.1 ∈ specialKeys then acc
    else pyReplace acc ("\x7b\x7b item." ++ kv.1 ++ " \x7d\x7d") kv.2) h3

/-- `enrich_lunch.render_template`.  The result is the written output
file's contents; `none` means no output file was written (missing
template, missing marker, or a multiply-occurring marker making the
2-element unpacking raise inside the `try`). -/
def render_template (tmpl : Option String) (items : List EnrichedItem)
    (today : String) : Option String :=
  match tmpl with
  | none => none
  | some template =>
    if containsSub startTag template && containsSub endTag template then
      match pySplit2 template startTag with
      | none => none
      | some (preLoop, rest) =>
        match pySplit2 rest endTag with
        | none => none
        | some (loopContent, postLoop) =>
          let rendered := items.foldl (fun acc it => acc ++ renderItem loopContent it) ""
          let final1 := preLoop ++ rendered ++ postLoop
          let final2 := pyReplace final1 "\x7b\x7b generation_date \x7d\x7d" today
          let final3 := pyReplace final2 "\x7b\x7b items_count \x7d\x7d" (toString items.length)
          some final3
    else none

/-! ## Injector (`scrape_lunch.inject_to_app`)

The substitution
`re.sub(r'let appData\s*=\s*(?:\[.*?\]|\[\]);', 'let appData = ' + json + ';', content, flags=re.DOTALL)`
is embedded directly: a match is the literal `let appData`, optional
whitespace, `=`, optional whitespace, `[`, then a lazy scan to the first
`];` (with `DOTALL`, `.` matches every character, and the `\[\]`
alternative is subsumed by the lazy one).  `re.sub` replaces every
non-overlapping match, scanning left to right.  The replacement text is
modelled literally; `re`'s processing of backslash escapes in the
replacement template only rewrites backslash sequences and cannot affect
the match structure the claims are about. -/

/-- The literal head of the injection pattern. -/
def litAppData : List Char := "let appData".data

/-- Lazy scan for the first `];`: returns the characters before it and
the characters after it. -/
def lazyClose : List Char → Option (List Char × List Char)
  | [] => none
  | [_] => none
  | c :: d :: rest =>
    if c = ']' ∧ d = ';' then some ([], rest)
    else (lazyClose (d :: rest)).map (fun p => (c :: p.1, p.2))

/-- Whether the string contains the two-character substring `];`. -/
def hasCloseSemi : List Char → Bool
  | [] => false
  | [_] => false
  | c :: d :: rest => (c = ']' && d = ';') || hasCloseSemi (d :: rest)

/-- Require a specific single character at the head. -/
def eqCons (c : Char) : List Char → Option (List Char)
  | d :: t => if d = c then some t else none
  | [] => none

/-- The deterministic prefix of the pattern
(`let appData\s*=\s*\[`): on success, the text after the `[`. -/
def detPhase (s : List Char) : Option (List Char) :=
  (stripLit litAppData s).bind (fun r1 =>
    (eqCons '=' (dropWs r1)).bind (fun r2 => eqCons '[' (dropWs r2)))

/-- A full pattern match at the head of `s`: on success, the text after
the match. -/
def matchAppData (s : List Char) : Option (List Char) :=
  (detPhase s).bind (fun r3 => (lazyClose r3).map (fun p => p.2))

/-- Leftmost match: the text before the match and the text after it. -/
def findMatch : List Char → Option (List Char × List Char)
  | [] => none
  | c :: cs =>
    match matchAppData (c :: cs) with
    | some rest => some ([], rest)
    | none => (findMatch cs).map (fun p => (c :: p.1, p.2))

/-- `lazyClose` decomposes the string around the first `];`. -/
theorem lazyClose_eq_some {s p r : List Char} (h : lazyClose s = some (p, r)) :
    s = p ++ ']' :: ';' :: r := by
  induction s generalizing p r with
  | nil => simp [lazyClose] at h
  | cons c cs ih =>
    cases cs with
    | nil => simp [lazyClose] at h
    | cons d rest =>
      rw [lazyClose] at h
      split at h
      · rename_i hcd
        obtain ⟨rfl, rfl⟩ := hcd
        obtain ⟨rfl, rfl⟩ : p = [] ∧ r = rest := by simpa using h.symm
        rfl
      · rename_i hcd
        cases hl : lazyClose (d :: rest) with
        | none => rw [hl] at h; simp at h
        | some q =>
          obtain ⟨q1, q2⟩ := q
          rw [hl] at h
          obtain ⟨rfl, rfl⟩ : p = c :: q1 ∧ r = q2 := by
            simpa using h.symm
          simpa using ih hl

/-- `dropWs` removes a (whitespace) prefix. -/
theorem dropWs_decomp (s : List Char) :
    ∃ u, (∀ c ∈ u, wsChar c = true) ∧ s = u ++ dropWs s := by
  induction s with
  | nil => exact ⟨[], by simp, rfl⟩
  | cons c cs ih =>
    by_cases hc : wsChar c = true
    · obtain ⟨u, hu, hdecomp⟩ := ih
      refine ⟨c :: u, ?_, ?_⟩
      · intro x hx
        rcases List.mem_cons.mp hx with rfl | hx
        · exact hc
        · exact hu x hx
      · simp only [dropWs, if_pos hc]
        simpa using hdecomp
    · exact ⟨[], by simp, by simp [dropWs, hc]⟩

/-- `detPhase` consumes a nonempty prefix that starts with the literal. -/
theorem eqCons_eq_some {c : Char} {s t : List Char} (h : eqCons c s = some t) :
    s = c :: t := by
  cases s with
  | nil => simp [eqCons] at h
  | cons d ds =>
    by_cases hd : d = c
    · subst hd
      have h' : ds = t := by simpa [eqCons] using h
      rw [h']
    · simp [eqCons, hd] at h

theorem detPhase_decomp {s r : List Char} (h : detPhase s = some r) :
    ∃ u, s = litAppData ++ u ++ '[' :: r := by
  unfold detPhase at h
  rw [Option.bind_eq_some] at h
  obtain ⟨r1, h1, h⟩ := h
  rw [Option.bind_eq_some] at h
  obtain ⟨r2, h2, h⟩ := h
  have hs1 : s = litAppData ++ r1 := stripLit_eq_some h1
  have hd1 : dropWs r1 = '=' :: r2 := eqCons_eq_some h2
  have hd2 : dropWs r2 = '[' :: r := eqCons_eq_some h
  obtain ⟨u1, _, hu1⟩ := dropWs_decomp r1
  rw [hd1] at hu1
  obtain ⟨u2, _, hu2⟩ := dropWs_decomp r2
  rw [hd2] at hu2
  exact ⟨u1 ++ '=' :: u2, by rw [hs1, hu1, hu2]; simp⟩

/-- A successful match consumes a nonempty prefix. -/
theorem matchAppData_decomp {s rest : List Char}
    (h : matchAppData s = some rest) :
    ∃ u p, s = litAppData ++ u ++ '[' :: (p ++ ']' :: ';' :: rest) := by
  unfold matchAppData at h
  rw [Option.bind_eq_some] at h
  obtain ⟨r3, hd, h⟩ := h
  rw [Option.map_eq_some'] at h
  obtain ⟨⟨p, r⟩, hl, hr⟩ := h
  cases hr
  obtain ⟨u, hu⟩ := detPhase_decomp hd
  exact ⟨u, p, by rw [hu, lazyClose_eq_some hl]⟩

/-- The remainder after a match is strictly shorter. -/
theorem matchAppData_rest_lt {s rest : List Char}
    (h : matchAppData s = some rest) : rest.length < s.length := by
  obtain ⟨u, p, hs⟩ := matchAppData_decomp h
  rw [hs]
  simp only [List.length_append, List.length_cons, litAppData]
  omega

/-- The remainder after the leftmost match is strictly shorter. -/
theorem findMatch_rest_lt {s pre rest : List Char}
    (h : findMatch s = some (pre, rest)) : rest.length < s.length := by
  induction s generalizing pre rest with
  | nil => simp [findMatch] at h
  | cons c cs ih =>
    simp only [findMatch] at h
    cases hm : matchAppData (c :: cs) with
    | some r =>
      rw [hm] at h
      obtain ⟨rfl, rfl⟩ : pre = [] ∧ r = rest := by simpa using h
      exact matchAppData_rest_lt hm
    | none =>
      rw [hm] at h
      cases hf : findMatch cs with
      | none => rw [hf] at h; simp at h
      | some q =>
        obtain ⟨q1, q2⟩ := q
        rw [hf] at h
        obtain ⟨rfl, rfl⟩ : pre = c :: q1 ∧ rest = q2 := by simpa using h.symm
        exact Nat.lt_succ_of_lt (ih hf)

/-- Worker for `subAll`, structurally recursive on a fuel bound;
`s.length` fuel always suffices (`findMatch_rest_lt`). -/
def subAllAux (repl : List Char) : Nat → List Char → List Char
  | 0, s => s
  | Nat.succ fuel, s =>
    match findMatch s with
    | none => s
    | some (pre, rest) => pre ++ repl ++ subAllAux repl fuel rest

/-- `re.sub` for the injection pattern: replace every non-overlapping
match by `repl`, scanning left to right. -/
def subAll (repl : List Char) (s : List Char) : List Char :=
  subAllAux repl s.length s

/-! ### Record serialization (`json.dumps(data, ensure_ascii=False)`)

The records injected by `scrape_lunch.main` are dicts of strings, `None`s
and ints; `lat`/`lon` additionally hold floats when geocoding succeeded.
The serialization is embedded for string/`None`/int values with Python's
default separators; the digits a float renders to contain no `]'/`;`/`"`
and never matter to the claims. -/

/-- A JSON leaf value as produced into the scraped record dicts. -/
inductive JLit where
  | jnull
  | jstr (s : String)
  | jint (n : Int)
deriving DecidableEq

/-- A serialized record: ordered key/value pairs. -/
abbrev JRow := List (String × JLit)

/-- JSON string escaping with `ensure_ascii=False`: only `"`, `\\` and
control characters are escaped; everything else is kept verbatim. -/
def jsonEscapeChar (c : Char) : List Char :=
  if c = '"' then ['\\', '"']
  else if c = '\\' then ['\\', '\\']
  else if c = '\n' then ['\\', 'n']
  else if c = '\t' then ['\\', 't']
  else if c = '\r' then ['\\', 'r']
  else if c = '\x08' then ['\\', 'b']
  else if c = '\x0c' then ['\\', 'f']
  else if c.toNat < 32 then
    ['\\', 'u', '0', '0', hexDigit (c.toNat / 16), hexDigit (c.toNat % 16)]
  else [c]

/-- A JSON string literal. -/
def dumpsStr (s : String) : String :=
  "\"" ++ ⟨(s.data.map jsonEscapeChar).flatten⟩ ++ "\""

/-- One JSON leaf. -/
def dumpsLit : JLit → String
  | JLit.jnull => "null"
  | JLit.jstr s => dumpsStr s
  | JLit.jint n => toString n

/-- One record object, Python's default `', '`/`': '` separators. -/
def dumpsRow (r : JRow) : String :=
  "\x7b" ++ String.intercalate ", "
    (r.map (fun kv => dumpsStr kv.1 ++ ": " ++ dumpsLit kv.2)) ++ "\x7d"

/-- The serialized record list. -/
def dumpsData (rows : List JRow) : String :=
  "[" ++ String.intercalate ", " (rows.map dumpsRow) ++ "]"

/-- `scrape_lunch.inject_to_app` on an existing host document: replace
every match of the `let appData` assignment pattern with
`'let appData = ' + json.dumps(data, ensure_ascii=False) + ';'` and
return the rewritten document. -/
def inject_to_app (rows : List JRow) (content : String) : String :=
  ⟨subAll ("let appData = " ++ dumpsData rows ++ ";").data content.data⟩

/-! ## Equation lemmas for the fuel-based workers -/

theorem findLit_nil (pat : List Char) : findLit pat [] = none := rfl

theorem replaceAllAux_congr {pat : List Char} (repl : List Char) (hp : pat ≠ []) :
    ∀ f1 f2 s, s.length ≤ f1 → s.length ≤ f2 →
      replaceAllAux pat repl f1 s = replaceAllAux pat repl f2 s := by
  intro f1
  induction f1 with
  | zero =>
    intro f2 s h1 _
    obtain rfl : s = [] := List.length_eq_zero.mp (Nat.le_zero.mp h1)
    cases f2 <;> simp [replaceAllAux, findLit]
  | succ n ih =>
    intro f2 s h1 h2
    cases f2 with
    | zero =>
      obtain rfl : s = [] := List.length_eq_zero.mp (Nat.le_zero.mp h2)
      simp [replaceAllAux, findLit]
    | succ m =>
      simp only [replaceAllAux]
      cases hf : findLit pat s with
      | none => rfl
      | some q =>
        obtain ⟨pre, rest⟩ := q
        dsimp only
        have hlt : rest.length < s.length := findLit_rest_length hp hf
        rw [ih m rest (by omega) (by omega)]

theorem replaceAll_eq {pat : List Char} (repl s : List Char) (hp : pat ≠ []) :
    replaceAll pat repl s =
      match findLit pat s with
      | none => s
      | some (pre, rest) => pre ++ repl ++ replaceAll pat repl rest := by
  conv_lhs => rw [replaceAll]
  rw [if_neg hp]
  cases hl : s.length with
  | zero =>
    obtain rfl : s = [] := List.length_eq_zero.mp hl
    simp [replaceAllAux, findLit]
  | succ n =>
    simp only [replaceAllAux]
    cases hf : findLit pat s with
    | none => rfl
    | some q =>
      obtain ⟨pre, rest⟩ := q
      dsimp only
      have hlt : rest.length < s.length := findLit_rest_length hp hf
      rw [hl] at hlt
      rw [replaceAllAux_congr repl hp n rest.length rest (by omega) le_rfl]
      rw [replaceAll, if_neg hp]

theorem replaceAll_of_findLit_none {pat repl s : List Char}
    (h : findLit pat s = none) : replaceAll pat repl s = s := by
  by_cases hp : pat = []
  · rw [replaceAll, if_pos hp]
  · rw [replaceAll_eq repl s hp, h]

theorem replaceAll_nil (pat repl : List Char) : replaceAll pat repl [] = [] :=
  replaceAll_of_findLit_none (findLit_nil pat)

theorem replaceAll_of_findLit_some {pat repl s pre rest : List Char} (hp : pat ≠ [])
    (h : findLit pat s = some (pre, rest)) :
    replaceAll pat repl s = pre ++ repl ++ replaceAll pat repl rest := by
  rw [replaceAll_eq repl s hp, h]

theorem findMatch_nil : findMatch [] = none := rfl

theorem subAllAux_congr (repl : List Char) :
    ∀ f1 f2 s, s.length ≤ f1 → s.length ≤ f2 →
      subAllAux repl f1 s = subAllAux repl f2 s := by
  intro f1
  induction f1 with
  | zero =>
    intro f2 s h1 _
    obtain rfl : s = [] := List.length_eq_zero.mp (Nat.le_zero.mp h1)
    cases f2 <;> simp [subAllAux, findMatch]
  | succ n ih =>
    intro f2 s h1 h2
    cases f2 with
    | zero =>
      obtain rfl : s = [] := List.length_eq_zero.mp (Nat.le_zero.mp h2)
      simp [subAllAux, findMatch]
    | succ m =>
      simp only [subAllAux]
      cases hf : findMatch s with
      | none => rfl
      | some q =>
        obtain ⟨pre, rest⟩ := q
        dsimp only
        have hlt : rest.length < s.length := findMatch_rest_lt hf
        rw [ih m rest (by omega) (by omega)]

theorem subAll_eq (repl s : List Char) :
    subAll repl s =
      match findMatch s with
      | none => s
      | some (pre, rest) => pre ++ repl ++ subAll repl rest := by
  conv_lhs => rw [subAll]
  cases hl : s.length with
  | zero =>
    obtain rfl : s = [] := List.length_eq_zero.mp hl
    simp [subAllAux, findMatch]
  | succ n =>
    simp only [subAllAux]
    cases hf : findMatch s with
    | none => rfl
    | some q =>
      obtain ⟨pre, rest⟩ := q
      dsimp only
      have hlt : rest.length < s.length := findMatch_rest_lt hf
      rw [hl] at hlt
      rw [subAllAux_congr repl n rest.length rest (by omega) le_rfl]
      rw [subAll]

theorem subAll_of_findMatch_none {repl s : List Char}
    (h : findMatch s = none) : subAll repl s = s := by
  rw [subAll_eq, h]

theorem subAll_of_findMatch_some {repl s pre rest : List Char}
    (h : findMatch s = some (pre, rest)) :
    subAll repl s = pre ++ repl ++ subAll repl rest := by
  rw [subAll_eq, h]

/-! ## Occurrences of the substring `];` -/

theorem hasCloseSemi_cons_false {c : Char} {s : List Char}
    (h : hasCloseSemi (c :: s) = false) : hasCloseSemi s = false := by
  cases s with
  | nil => rfl
  | cons d t =>
    rw [hasCloseSemi, Bool.or_eq_false_iff] at h
    exact h.2

theorem hasCloseSemi_append_false {xs ys : List Char}
    (h : hasCloseSemi (xs ++ ys) = false) : hasCloseSemi xs = false := by
  induction xs with
  | nil => rfl
  | cons a as ih =>
    cases as with
    | nil => rfl
    | cons b bs =>
      rw [List.cons_append, List.cons_append] at h
      rw [hasCloseSemi, Bool.or_eq_false_iff] at h ⊢
      refine ⟨h.1, ?_⟩
      exact ih (by rw [List.cons_append]; exact h.2)

theorem hasCloseSemi_append_right (xs : List Char) {ys : List Char}
    (h : hasCloseSemi ys = true) : hasCloseSemi (xs ++ ys) = true := by
  induction xs with
  | nil => simpa using h
  | cons a as ih =>
    cases hcat : as ++ ys with
    | nil =>
      obtain ⟨rfl, rfl⟩ := List.append_eq_nil.mp hcat
      simp [hasCloseSemi] at h
    | cons b t =>
      rw [List.cons_append, hcat, hasCloseSemi, ← hcat, ih]
      simp

theorem hasCloseSemi_pair (x : List Char) : hasCloseSemi (']' :: ';' :: x) = true := by
  rw [hasCloseSemi]
  simp

theorem lazyClose_exact {mid : List Char} (ys : List Char)
    (h : hasCloseSemi mid = false) :
    lazyClose (mid ++ ']' :: ';' :: ys) = some (mid, ys) := by
  induction mid with
  | nil =>
    show lazyClose (']' :: ';' :: ys) = some ([], ys)
    rw [lazyClose, if_pos ⟨rfl, rfl⟩]
  | cons c ms ih =>
    have hms : hasCloseSemi ms = false := hasCloseSemi_cons_false h
    cases ms with
    | nil =>
      show lazyClose (c :: ']' :: ';' :: ys) = some ([c], ys)
      rw [lazyClose, if_neg (by simp)]
      have hbase : lazyClose (']' :: ';' :: ys) = some ([], ys) := by
        rw [lazyClose, if_pos ⟨rfl, rfl⟩]
      rw [hbase]
      rfl
    | cons m1 ms2 =>
      show lazyClose (c :: ((m1 :: ms2) ++ ']' :: ';' :: ys)) = some (c :: m1 :: ms2, ys)
      rw [List.cons_append, lazyClose]
      have hfirst : ¬ (c = ']' ∧ m1 = ';') := by
        intro hp
        rw [hasCloseSemi, hp.1, hp.2] at h
        simp at h
      rw [if_neg hfirst, ← List.cons_append, ih hms]
      rfl

theorem lazyClose_isSome {s : List Char} (h : hasCloseSemi s = true) :
    (lazyClose s).isSome = true := by
  induction s with
  | nil => simp [hasCloseSemi] at h
  | cons c cs ih =>
    cases cs with
    | nil => simp [hasCloseSemi] at h
    | cons d t =>
      rw [hasCloseSemi, Bool.or_eq_true] at h
      rw [lazyClose]
      rcases h with h1 | h2
      · simp only [Bool.and_eq_true, decide_eq_true_eq] at h1
        rw [if_pos h1]
        rfl
      · by_cases hcd : c = ']' ∧ d = ';'
        · rw [if_pos hcd]; rfl
        · rw [if_neg hcd]
          have hs := ih h2
          cases ho : lazyClose (d :: t) with
          | none => rw [ho] at hs; simp at hs
          | some q => rfl

/-! ## Failure transfer: a position that does not start a match keeps not
starting one when the text after the next match is replaced -/

theorem stripLit_self_append (l s : List Char) : stripLit l (l ++ s) = some s := by
  induction l with
  | nil => rfl
  | cons c cs ih => rw [List.cons_append, stripLit, if_pos rfl]; exact ih

theorem stripLit_trichotomy (l v : List Char) :
    (∀ w, stripLit l (v ++ w) = none) ∨
    (∃ v2, stripLit l v = some v2 ∧ ∀ w, stripLit l (v ++ w) = some (v2 ++ w)) ∨
    (∃ l2, l = v ++ l2 ∧ ∀ w, stripLit l (v ++ w) = stripLit l2 w) := by
  induction l generalizing v with
  | nil =>
    right; left
    exact ⟨v, rfl, fun w => rfl⟩
  | cons c cs ih =>
    cases v with
    | nil =>
      right; right
      exact ⟨c :: cs, rfl, fun w => rfl⟩
    | cons d ds =>
      by_cases hc : c = d
      · subst hc
        rcases ih ds with h1 | h2 | h3
        · left
          intro w
          show stripLit (c :: cs) (c :: (ds ++ w)) = none
          rw [stripLit, if_pos rfl]
          exact h1 w
        · right; left
          obtain ⟨v2, hv2, hall⟩ := h2
          refine ⟨v2, ?_, fun w => ?_⟩
          · show stripLit (c :: cs) (c :: ds) = some v2
            rw [stripLit, if_pos rfl]; exact hv2
          · show stripLit (c :: cs) (c :: (ds ++ w)) = some (v2 ++ w)
            rw [stripLit, if_pos rfl]; exact hall w
        · right; right
          obtain ⟨l2, hl2, hall⟩ := h3
          refine ⟨l2, by rw [List.cons_append, ← hl2], fun w => ?_⟩
          show stripLit (c :: cs) (c :: (ds ++ w)) = stripLit l2 w
          rw [stripLit, if_pos rfl]; exact hall w
      · left
        intro w
        show stripLit (c :: cs) (d :: (ds ++ w)) = none
        rw [stripLit, if_neg hc]

theorem dropWs_trichotomy (v : List Char) :
    (dropWs v = [] ∧ ∀ w, dropWs (v ++ w) = dropWs w) ∨
    (∃ e t, dropWs v = e :: t ∧ wsChar e = false ∧
      ∀ w, dropWs (v ++ w) = e :: (t ++ w)) := by
  induction v with
  | nil => exact Or.inl ⟨rfl, fun w => rfl⟩
  | cons c cs ih =>
    by_cases hc : wsChar c = true
    · rcases ih with ⟨h1, hall⟩ | ⟨e, t, h1, he, hall⟩
      · left
        refine ⟨?_, fun w => ?_⟩
        · rw [dropWs, if_pos hc]; exact h1
        · show dropWs (c :: (cs ++ w)) = dropWs w
          rw [dropWs, if_pos hc]; exact hall w
      · right
        refine ⟨e, t, ?_, he, fun w => ?_⟩
        · rw [dropWs, if_pos hc]; exact h1
        · show dropWs (c :: (cs ++ w)) = e :: (t ++ w)
          rw [dropWs, if_pos hc]; exact hall w
    · right
      refine ⟨c, cs, ?_, by simpa using hc, fun w => ?_⟩
      · rw [dropWs, if_neg hc]
      · show dropWs (c :: (cs ++ w)) = c :: (cs ++ w)
        rw [dropWs, if_neg hc]

theorem dropWs_l (x : List Char) : dropWs ('l' :: x) = 'l' :: x := by
  rw [dropWs, if_neg (by decide : ¬ (wsChar 'l' = true))]

theorem eqCons_l {c : Char} (hx : c ≠ 'l') (x : List Char) :
    eqCons c ('l' :: x) = none := by
  rw [eqCons, if_neg (fun hh => hx hh.symm)]

theorem litAppData_suffix_head {v : List Char} {c : Char} {cs : List Char}
    (h : litAppData = v ++ c :: cs) (hv : v ≠ []) : c ≠ 'l' := by
  have hmem : c ∈ litAppData.drop 1 := by
    cases v with
    | nil => exact absurd rfl hv
    | cons a as =>
      rw [h]
      show c ∈ ((a :: as) ++ c :: cs).drop 1
      rw [List.cons_append]
      simp
  have hall : ∀ x ∈ litAppData.drop 1, x ≠ 'l' := by decide
  exact hall c hmem

/-- At a position strictly before a match start (so `v ≠ []`), the
deterministic prefix of the pattern either fails without reading past the
first character of the continuation, or succeeds entirely inside `v`;
either way the outcome is uniform in the continuation's tail. -/
theorem detPhase_shape (v : List Char) (hv : v ≠ []) :
    (∀ x, detPhase (v ++ 'l' :: x) = none) ∨
    (∃ u, ∀ x, detPhase (v ++ 'l' :: x) = some (u ++ 'l' :: x)) := by
  rcases stripLit_trichotomy litAppData v with h1 | h2 | h3
  · left
    intro x
    simp [detPhase, h1 ('l' :: x)]
  · obtain ⟨v2, _, hall⟩ := h2
    rcases dropWs_trichotomy v2 with ⟨_, hdall⟩ | ⟨e, t, _, _, hdall⟩
    · left
      intro x
      simp [detPhase, hall ('l' :: x), hdall ('l' :: x), dropWs_l,
        eqCons_l (by decide : ('=' : Char) ≠ 'l')]
    · by_cases hee : e = '='
      · subst hee
        rcases dropWs_trichotomy t with ⟨_, hd2all⟩ | ⟨f, t2, _, _, hd2all⟩
        · left
          intro x
          simp [detPhase, hall ('l' :: x), hdall ('l' :: x), hd2all ('l' :: x),
            dropWs_l, eqCons, eqCons_l (by decide : ('[' : Char) ≠ 'l')]
        · by_cases hff : f = '['
          · subst hff
            right
            refine ⟨t2, fun x => ?_⟩
            simp [detPhase, hall ('l' :: x), hdall ('l' :: x), hd2all ('l' :: x), eqCons]
          · left
            intro x
            simp [detPhase, hall ('l' :: x), hdall ('l' :: x), hd2all ('l' :: x),
              eqCons, hff]
      · left
        intro x
        simp [detPhase, hall ('l' :: x), hdall ('l' :: x), eqCons, hee]
  · obtain ⟨l2, hl2, hall⟩ := h3
    cases l2 with
    | nil =>
      left
      intro x
      simp [detPhase, hall ('l' :: x), stripLit, dropWs_l,
        eqCons_l (by decide : ('=' : Char) ≠ 'l')]
    | cons c l3 =>
      have hc : c ≠ 'l' := litAppData_suffix_head hl2 hv
      left
      intro x
      simp [detPhase, hall ('l' :: x), stripLit, hc]

theorem matchAppData_shape_none (v w w2 : List Char) (hv : v ≠ [])
    (hcs : hasCloseSemi ('l' :: w) = true)
    (h : matchAppData (v ++ 'l' :: w) = none) :
    matchAppData (v ++ 'l' :: w2) = none := by
  rcases detPhase_shape v hv with hn | ⟨u, hs⟩
  · unfold matchAppData
    rw [hn w2]
    rfl
  · exfalso
    unfold matchAppData at h
    rw [hs w, Option.some_bind] at h
    have hsome : (lazyClose (u ++ 'l' :: w)).isSome = true :=
      lazyClose_isSome (hasCloseSemi_append_right u hcs)
    cases hl : lazyClose (u ++ 'l' :: w) with
    | none => rw [hl] at hsome; simp at hsome
    | some q => rw [hl] at h; simp at h

/-! ## The leftmost-match scan -/

theorem matchAppData_head {s rest : List Char} (h : matchAppData s = some rest) :
    ∃ t, s = 'l' :: t := by
  obtain ⟨u, p, hs⟩ := matchAppData_decomp h
  have hlit : litAppData = 'l' :: "et appData".data := by decide
  refine ⟨"et appData".data ++ u ++ '[' :: (p ++ ']' :: ';' :: rest), ?_⟩
  rw [hs, hlit]
  simp

theorem matchAppData_hasCloseSemi {s rest : List Char}
    (h : matchAppData s = some rest) : hasCloseSemi s = true := by
  obtain ⟨u, p, hs⟩ := matchAppData_decomp h
  rw [hs]
  have h2 : hasCloseSemi (']' :: ';' :: rest) = true := hasCloseSemi_pair rest
  have h3 := hasCloseSemi_append_right ('[' :: p) h2
  have h4 := hasCloseSemi_append_right (litAppData ++ u) h3
  simpa using h4

theorem findMatch_cons_some {c : Char} {cs rest : List Char}
    (hm : matchAppData (c :: cs) = some rest) :
    findMatch (c :: cs) = some ([], rest) := by
  rw [findMatch, hm]

theorem findMatch_cons_none {c : Char} {cs : List Char}
    (hm : matchAppData (c :: cs) = none) :
    findMatch (c :: cs) = (findMatch cs).map (fun p => (c :: p.1, p.2)) := by
  rw [findMatch, hm]

theorem findMatch_some_spec {s pre rest : List Char}
    (h : findMatch s = some (pre, rest)) :
    ∃ m, s = pre ++ m ++ rest ∧ matchAppData (m ++ rest) = some rest ∧
      ∀ v1 v2, pre = v1 ++ v2 → v2 ≠ [] → matchAppData (v2 ++ m ++ rest) = none := by
  induction s generalizing pre rest with
  | nil => simp [findMatch] at h
  | cons c cs ih =>
    cases hm : matchAppData (c :: cs) with
    | some r =>
      rw [findMatch_cons_some hm] at h
      injection h with hpair
      have h1 : pre = [] := (congrArg Prod.fst hpair).symm
      have h2 : rest = r := (congrArg Prod.snd hpair).symm
      subst h1
      subst h2
      obtain ⟨u, p, hs⟩ := matchAppData_decomp hm
      refine ⟨litAppData ++ u ++ '[' :: (p ++ [']'] ++ [';']), ?_, ?_, ?_⟩
      · rw [hs]; simp
      · have heq : litAppData ++ u ++ '[' :: (p ++ [']'] ++ [';']) ++ rest = c :: cs := by
          rw [hs]; simp
        rw [heq]
        exact hm
      · intro v1 v2 hpre hv2
        exact absurd (List.append_eq_nil.mp hpre.symm).2 hv2
    | none =>
      rw [findMatch_cons_none hm] at h
      cases hf : findMatch cs with
      | none => rw [hf] at h; simp at h
      | some q =>
        obtain ⟨q1, q2⟩ := q
        rw [hf] at h
        simp only [Option.map_some'] at h
        injection h with hpair
        have h1 : pre = c :: q1 := (congrArg Prod.fst hpair).symm
        have h2 : rest = q2 := (congrArg Prod.snd hpair).symm
        subst h1
        subst h2
        obtain ⟨m, hsm, hmm, hrest⟩ := ih hf
        refine ⟨m, by rw [hsm]; simp, hmm, ?_⟩
        intro v1 v2 hpre hv2
        cases v1 with
        | nil =>
          have hv2eq : v2 = c :: q1 := by simpa using hpre.symm
          subst hv2eq
          have heq : (c :: q1) ++ m ++ rest = c :: cs := by rw [hsm]; simp
          rw [heq]
          exact hm
        | cons a v1x =>
          rw [List.cons_append] at hpre
          injection hpre with hca hq
          subst hca
          exact hrest v1x v2 hq hv2

theorem findMatch_build {pre t rest : List Char}
    (hnone : ∀ v1 v2, pre = v1 ++ v2 → v2 ≠ [] → matchAppData (v2 ++ t) = none)
    (hm : matchAppData t = some rest) :
    findMatch (pre ++ t) = some (pre, rest) := by
  induction pre with
  | nil =>
    cases t with
    | nil =>
      have hnil : matchAppData ([] : List Char) = none := rfl
      rw [hnil] at hm
      simp at hm
    | cons c cs =>
      rw [List.nil_append, findMatch, hm]
  | cons a prex ih =>
    rw [List.cons_append, findMatch]
    have h1 : matchAppData (a :: (prex ++ t)) = none := by
      have h0 := hnone [] (a :: prex) rfl (by simp)
      simpa using h0
    rw [h1]
    have ih2 := ih (fun v1 v2 hp hv => hnone (a :: v1) v2 (by rw [hp, List.cons_append]) hv)
    rw [ih2]
    rfl

/-! ## Fixpoint of the injection substitution -/

/-- The replacement text `'let appData = ' + json + ';'`, with the
serialized payload decomposed as `[` + `inner` + `]`. -/
def appDataRepl (inner : List Char) : List Char :=
  litAppData ++ ' ' :: '=' :: ' ' :: '[' :: (inner ++ [']', ';'])

theorem appDataRepl_append (inner Y : List Char) :
    appDataRepl inner ++ Y =
      litAppData ++ ' ' :: '=' :: ' ' :: '[' :: (inner ++ ']' :: ';' :: Y) := by
  simp [appDataRepl]

theorem appDataRepl_head (inner : List Char) :
    ∃ t, appDataRepl inner = 'l' :: t := by
  have hlit : litAppData = 'l' :: "et appData".data := by decide
  refine ⟨"et appData".data ++ ' ' :: '=' :: ' ' :: '[' :: (inner ++ [']', ';']), ?_⟩
  rw [appDataRepl, hlit]
  rfl

theorem matchAppData_R {inner : List Char} (Y : List Char)
    (hin : hasCloseSemi inner = false) :
    matchAppData (litAppData ++ ' ' :: '=' :: ' ' :: '[' :: (inner ++ ']' :: ';' :: Y)) =
      some Y := by
  unfold matchAppData detPhase
  rw [stripLit_self_append, Option.some_bind]
  have hd1 : dropWs (' ' :: '=' :: ' ' :: '[' :: (inner ++ ']' :: ';' :: Y)) =
      '=' :: ' ' :: '[' :: (inner ++ ']' :: ';' :: Y) := by
    rw [dropWs, if_pos (by decide : wsChar ' ' = true),
      dropWs, if_neg (by decide : ¬ (wsChar '=' = true))]
  rw [hd1, eqCons, if_pos rfl, Option.some_bind]
  have hd2 : dropWs (' ' :: '[' :: (inner ++ ']' :: ';' :: Y)) =
      '[' :: (inner ++ ']' :: ';' :: Y) := by
    rw [dropWs, if_pos (by decide : wsChar ' ' = true),
      dropWs, if_neg (by decide : ¬ (wsChar '[' = true))]
  rw [hd2, eqCons, if_pos rfl, Option.some_bind, lazyClose_exact Y hin]
  rfl

/-- Core fixpoint argument: when the serialized payload has no internal
`];`, one substitution pass reaches a fixed point, on every document. -/
theorem subAll_fixpoint {inner : List Char} (hin : hasCloseSemi inner = false) :
    ∀ n s, s.length ≤ n →
      subAll (appDataRepl inner) (subAll (appDataRepl inner) s) =
        subAll (appDataRepl inner) s := by
  intro n
  induction n with
  | zero =>
    intro s hs
    obtain rfl : s = [] := List.length_eq_zero.mp (Nat.le_zero.mp hs)
    rw [subAll_of_findMatch_none findMatch_nil, subAll_of_findMatch_none findMatch_nil]
  | succ n ih =>
    intro s hs
    cases hfm : findMatch s with
    | none =>
      rw [subAll_of_findMatch_none hfm, subAll_of_findMatch_none hfm]
    | some pq =>
      obtain ⟨pre, rest⟩ := pq
      obtain ⟨m, hsm, hmm, hnone⟩ := findMatch_some_spec hfm
      have hrl : rest.length ≤ n := by
        have := findMatch_rest_lt hfm
        omega
      have hYfix : subAll (appDataRepl inner) (subAll (appDataRepl inner) rest) =
          subAll (appDataRepl inner) rest := ih rest hrl
      have hR : matchAppData (appDataRepl inner ++ subAll (appDataRepl inner) rest) =
          some (subAll (appDataRepl inner) rest) := by
        rw [appDataRepl_append]
        exact matchAppData_R _ hin
      have hnone2 : ∀ v1 v2, pre = v1 ++ v2 → v2 ≠ [] →
          matchAppData (v2 ++ (appDataRepl inner ++ subAll (appDataRepl inner) rest)) =
            none := by
        intro v1 v2 hp hv
        have horig := hnone v1 v2 hp hv
        obtain ⟨mt, hmt⟩ := matchAppData_head hmm
        have hcs : hasCloseSemi ('l' :: mt) = true := by
          rw [← hmt]
          exact matchAppData_hasCloseSemi hmm
        rw [List.append_assoc, hmt] at horig
        obtain ⟨rt, hrt⟩ := appDataRepl_head inner
        have hshape := matchAppData_shape_none v2 mt
          (rt ++ subAll (appDataRepl inner) rest) hv hcs horig
        rw [hrt] at hshape ⊢
        simpa using hshape
      have hfm2 : findMatch (pre ++ (appDataRepl inner ++ subAll (appDataRepl inner) rest)) =
          some (pre, subAll (appDataRepl inner) rest) := findMatch_build hnone2 hR
      rw [subAll_of_findMatch_some hfm, List.append_assoc,
        subAll_of_findMatch_some hfm2, hYfix, List.append_assoc]

/-! ## Serialization shape and helper facts -/

theorem dumpsData_data (rows : List JRow) :
    (dumpsData rows).data =
      '[' :: ((String.intercalate ", " (rows.map dumpsRow)).data ++ [']']) := by
  unfold dumpsData
  rw [String.data_append, String.data_append]
  rfl

theorem inject_repl_data (rows : List JRow) :
    ("let appData = " ++ dumpsData rows ++ ";").data =
      appDataRepl (String.intercalate ", " (rows.map dumpsRow)).data := by
  rw [String.data_append, String.data_append, dumpsData_data]
  have h1 : ("let appData = " : String).data = litAppData ++ [' ', '=', ' '] := by decide
  have h2 : ((";" : String)).data = [';'] := by decide
  rw [h1, h2]
  simp [appDataRepl]

theorem hasCloseSemi_inner_of_dumps {rows : List JRow}
    (hcs : hasCloseSemi (dumpsData rows).data = false) :
    hasCloseSemi (String.intercalate ", " (rows.map dumpsRow)).data = false := by
  rw [dumpsData_data] at hcs
  exact hasCloseSemi_append_false (hasCloseSemi_cons_false hcs)

theorem find?_eq_some_of_first {α : Type} {p : α → Bool} :
    ∀ (pre : List α) (g : α) (post : List α), (∀ f ∈ pre, p f = false) → p g = true →
      (pre ++ g :: post).find? p = some g := by
  intro pre
  induction pre with
  | nil =>
    intro g post _ hg
    rw [List.nil_append, List.find?_cons, hg]
  | cons a pre2 ih =>
    intro g post hpre hg
    rw [List.cons_append, List.find?_cons, hpre a (List.mem_cons_self a pre2)]
    exact ih g post (fun f hf => hpre f (List.mem_cons_of_mem a hf)) hg

theorem geocode_address_of_failure {g : GeoOutcome}
    (h : g = GeoOutcome.err ∨ ∃ status body, g = GeoOutcome.resp status body ∧
      (status ≠ 200 ∨ body = none ∨ ∃ b, body = some b ∧ b.features = [])) :
    geocode_address g = (none, none) := by
  rcases h with rfl | ⟨status, body, rfl, hcase⟩
  · rfl
  · rcases hcase with hs | rfl | ⟨b, rfl, hb⟩
    · simp [geocode_address, hs]
    · by_cases hs2 : status = 200 <;> simp [geocode_address, hs2]
    · by_cases hs2 : status = 200 <;> simp [geocode_address, hs2, hb]

theorem scrapeGeo_walkingTime (item0 : ScrapeItem) (g : GeoOutcome) :
    (scrapeGeo item0 g).walkingTime = item0.walkingTime := by
  cases g with
  | err => rfl
  | resp status body =>
    by_cases hs : status = 200
    · simp only [scrapeGeo, if_pos hs]
      cases body with
      | none => rfl
      | some b =>
        obtain ⟨feats⟩ := b
        cases feats with
        | nil => rfl
        | cons f fs =>
          obtain ⟨coords, cu, ov⟩ := f
          cases coords with
          | nil => rfl
          | cons c0 cr => cases cr <;> rfl
    · simp [scrapeGeo, hs]

theorem string_append_empty (s : String) : s ++ "" = s := by
  apply String.ext
  rw [String.data_append]
  simp

theorem pyReplace_empty (pat repl : String) : pyReplace "" pat repl = "" := by
  unfold pyReplace
  rw [show ("" : String).data = [] from rfl, replaceAll_nil]

theorem renderItem_empty (it : EnrichedItem) : renderItem "" it = "" := by
  unfold renderItem
  dsimp only
  rw [pyReplace_empty, pyReplace_empty, pyReplace_empty]
  have hfold : ∀ row : RawRow, row.foldl (fun acc kv =>
      if kv.1 ∈ specialKeys then acc
      else pyReplace acc ("\x7b\x7b item." ++ kv.1 ++ " \x7d\x7d") kv.2) "" = "" := by
    intro row
    induction row with
    | nil => rfl
    | cons kv rest ih =>
      rw [List.foldl_cons]
      by_cases hk : kv.1 ∈ specialKeys
      · rw [if_pos hk]; exact ih
      · rw [if_neg hk, pyReplace_empty]; exact ih
  exact hfold it.row

theorem render_foldl_empty (items : List EnrichedItem) :
    ∀ acc : String, items.foldl (fun acc it => acc ++ renderItem "" it) acc = acc := by
  induction items with
  | nil => intro acc; rfl
  | cons it rest ih =>
    intro acc
    rw [List.foldl_cons, renderItem_empty, string_append_empty]
    exact ih acc

theorem render_count_template (items : List EnrichedItem) (today : String) :
    render_template (some (startTag ++ endTag ++ "\x7b\x7b items_count \x7d\x7d"))
        items today =
      some (toString items.length) := by
  unfold render_template
  dsimp only
  rw [if_pos (by decide :
    (containsSub startTag (startTag ++ endTag ++ "\x7b\x7b items_count \x7d\x7d") &&
     containsSub endTag (startTag ++ endTag ++ "\x7b\x7b items_count \x7d\x7d")) = true)]
  rw [show pySplit2 (startTag ++ endTag ++ "\x7b\x7b items_count \x7d\x7d") startTag =
      some ("", endTag ++ "\x7b\x7b items_count \x7d\x7d") from by decide]
  dsimp only
  rw [show pySplit2 (endTag ++ "\x7b\x7b items_count \x7d\x7d") endTag =
      some ("", "\x7b\x7b items_count \x7d\x7d") from by decide]
  dsimp only
  rw [render_foldl_empty]
  rw [show (("" : String) ++ "" ++ "\x7b\x7b items_count \x7d\x7d") =
      "\x7b\x7b items_count \x7d\x7d" from by decide]
  rw [show pyReplace "\x7b\x7b items_count \x7d\x7d" "\x7b\x7b generation_date \x7d\x7d" today =
      "\x7b\x7b items_count \x7d\x7d" from by
    unfold pyReplace
    rw [replaceAll_of_findLit_none (by decide)]]
  rw [show pyReplace "\x7b\x7b items_count \x7d\x7d" "\x7b\x7b items_count \x7d\x7d"
      (toString items.length) = toString items.length from by
    unfold pyReplace
    rw [replaceAll_of_findLit_some (by decide) (by decide :
      findLit ("\x7b\x7b items_count \x7d\x7d" : String).data
        ("\x7b\x7b items_count \x7d\x7d" : String).data = some ([], []))]
    rw [replaceAll_nil]
    apply String.ext
    simp]

/-! ## Claims -/

/-- C1 (amended): the number of records produced by the remote-scrape
extraction equals the minimum of the lengths of only four of the parallel
arrays — names, addresses, postal codes and cities; the website array does
not bound the record count (a short `urls` array is padded with `""`), and
the extraction is a total function of the five arrays, so it never raises
on ragged input. -/
theorem scrape_extract_count (names addrs zips cities urls : List String)
    (geo : Nat → GeoOutcome) :
    (scrape_extract names addrs zips cities urls geo).length =
      min (min names.length addrs.length) (min zips.length cities.length) := by
  unfold scrape_extract
  rw [List.length_map, List.length_range]

/-- C1 counterexample: with four singleton field arrays and an empty
website array the extraction produces one record, while the minimum over
all five array lengths is `0`, so the record count is not `min(L1..L5)`. -/
theorem scrape_extract_count_cex :
    (scrape_extract ["a1"] ["b1"] ["c1"] ["d1"] [] (fun _ => GeoOutcome.err)).length = 1 ∧
    min (min (min (min (["a1"] : List String).length (["b1"] : List String).length)
          (["c1"] : List String).length) (["d1"] : List String).length)
        ([] : List String).length = 0 := by
  constructor
  · decide
  · decide

/-- C2 (amended): on every geocoding failure the scrape-mode record keeps
the sentinel `walkingTime = 999`.  On a request/timeout exception, a
malformed payload, or an empty feature set the cuisine defaults to
`"International"`; on a non-200 response, however, the cuisine is left
unset (`None`), not `"International"`.  In local-file mode every
geocoding failure yields `walking_time_raw = 999` and the display marker
`"?"`, which is one of the two documented unresolved markers (local-file
records carry no cuisine field at all). -/
theorem geo_failure_defaults (nm ad pz ort ws : String) (row : RawRow)
    (o : Option OsrmResponse) (g : GeoOutcome) :
    ((g = GeoOutcome.err ∨ g = GeoOutcome.resp 200 none ∨
        (∃ b, g = GeoOutcome.resp 200 (some b) ∧ b.features = [])) →
      (scrapeGeo (mkScrapeItem nm ad pz ort ws) g).walkingTime = 999 ∧
      (scrapeGeo (mkScrapeItem nm ad pz ort ws) g).cuisine = some "International") ∧
    (∀ status body, status ≠ 200 →
      (scrapeGeo (mkScrapeItem nm ad pz ort ws) (GeoOutcome.resp status body)).walkingTime
          = 999 ∧
      (scrapeGeo (mkScrapeItem nm ad pz ort ws) (GeoOutcome.resp status body)).cuisine
          = none) ∧
    ((g = GeoOutcome.err ∨ ∃ status body, g = GeoOutcome.resp status body ∧
        (status ≠ 200 ∨ body = none ∨ ∃ b, body = some b ∧ b.features = [])) →
      (localEnrich row g o).walking_time_raw = 999 ∧
      (localEnrich row g o).walking_time = "?" ∧
      ((localEnrich row g o).walking_time = "N/A" ∨
       (localEnrich row g o).walking_time = "?")) := by
  refine ⟨?_, ?_, ?_⟩
  · rintro (rfl | rfl | ⟨b, rfl, hb⟩)
    · exact ⟨rfl, rfl⟩
    · exact ⟨rfl, rfl⟩
    · constructor <;> simp [scrapeGeo, mkScrapeItem, hb]
  · intro status body hs
    constructor <;> simp [scrapeGeo, mkScrapeItem, hs]
  · intro hfail
    have hgeo := geocode_address_of_failure hfail
    simp [localEnrich, hgeo]

/-- C2 witness: a concrete network exception takes the documented
defaults in both modes. -/
theorem geo_failure_defaults_witness :
    (scrapeGeo (mkScrapeItem "A" "B" "C" "D" "") GeoOutcome.err).walkingTime = 999 ∧
    (scrapeGeo (mkScrapeItem "A" "B" "C" "D" "") GeoOutcome.err).cuisine
        = some "International" ∧
    (localEnrich [("Adresse", "B")] GeoOutcome.err none).walking_time_raw = 999 ∧
    (localEnrich [("Adresse", "B")] GeoOutcome.err none).walking_time = "?" := by
  obtain ⟨h1, _, h3⟩ :=
    geo_failure_defaults "A" "B" "C" "D" "" [("Adresse", "B")] none GeoOutcome.err
  obtain ⟨ha, hb⟩ := h1 (Or.inl rfl)
  obtain ⟨hc, hd, _⟩ := h3 (Or.inl rfl)
  exact ⟨ha, hb, hc, hd⟩

/-- C2 counterexample: on a non-200 geocoding response the scrape-mode
record's cuisine stays `None` — the claimed default `"International"` is
not applied (the `else` branch only covers the empty-feature case). -/
theorem geo_failure_defaults_cex :
    (scrapeGeo (mkScrapeItem "A" "B" "C" "D" "") (GeoOutcome.resp 404 none)).cuisine
        = none ∧
    (scrapeGeo (mkScrapeItem "A" "B" "C" "D" "") (GeoOutcome.resp 404 none)).cuisine
        ≠ some "International" ∧
    (scrapeGeo (mkScrapeItem "A" "B" "C" "D" "") (GeoOutcome.resp 404 none)).walkingTime
        = 999 := by
  refine ⟨?_, ?_, ?_⟩ <;> decide

/-- C3 (amended): the reader never propagates a parse failure, but it does
not return the empty list either: it returns exactly the rows decoded
before the first failure — the whole list when no failure occurs, a
possibly non-empty prefix when parsing fails midway. -/
theorem read_csv_stops_at_error (evs : List CsvEvent) :
    read_csv evs = (evs.takeWhile isRowEvent).filterMap eventRow := by
  induction evs with
  | nil => rfl
  | cons e rest ih =>
    cases e with
    | row r => simp [read_csv, List.takeWhile_cons, isRowEvent, eventRow, ih]
    | err => simp [read_csv, List.takeWhile_cons, isRowEvent]

/-- C3 counterexample: an input whose first row parses and whose second
line is malformed yields the one-row prefix, not the empty list. -/
theorem read_csv_partial_cex :
    read_csv [CsvEvent.row [("Restaurant", "A")], CsvEvent.err] = [[("Restaurant", "A")]] ∧
    ([[("Restaurant", "A")]] : List RawRow) ≠ [] := by
  exact ⟨rfl, by simp⟩

/-- C4 (amended): injection is idempotent for every host document and
every record list whose JSON serialization contains no occurrence of the
two-character substring `];` (in particular whenever no serialized string
value contains `];`): running the substitution twice yields the same
document as running it once.  When the serialization does contain `];`,
the lazy `\[.*?\];` match of the second run can end inside the data
injected by the first run, and idempotence fails. -/
theorem inject_to_app_idempotent (rows : List JRow) (content : String)
    (hcs : hasCloseSemi (dumpsData rows).data = false) :
    inject_to_app rows (inject_to_app rows content) = inject_to_app rows content := by
  apply String.ext
  unfold inject_to_app
  show subAll (("let appData = " ++ dumpsData rows ++ ";").data)
      (subAll (("let appData = " ++ dumpsData rows ++ ";").data) content.data) =
    subAll (("let appData = " ++ dumpsData rows ++ ";").data) content.data
  rw [inject_repl_data]
  exact subAll_fixpoint (hasCloseSemi_inner_of_dumps hcs)
    content.data.length content.data le_rfl

/-- C4 witness: a benign record list (no `];` in the serialization) is
injected idempotently into a host document. -/
theorem inject_to_app_idempotent_witness :
    hasCloseSemi (dumpsData [[("Restaurant", JLit.jstr "Pizzeria Roma"),
        ("cuisine", JLit.jnull), ("walkingTime", JLit.jint 999)]]).data = false ∧
    inject_to_app [[("Restaurant", JLit.jstr "Pizzeria Roma"),
        ("cuisine", JLit.jnull), ("walkingTime", JLit.jint 999)]]
        (inject_to_app [[("Restaurant", JLit.jstr "Pizzeria Roma"),
          ("cuisine", JLit.jnull), ("walkingTime", JLit.jint 999)]]
          "<html>let appData = [];</html>") =
      inject_to_app [[("Restaurant", JLit.jstr "Pizzeria Roma"),
        ("cuisine", JLit.jnull), ("walkingTime", JLit.jint 999)]]
        "<html>let appData = [];</html>" :=
  ⟨by decide, inject_to_app_idempotent _ "<html>let appData = [];</html>" (by decide)⟩

/-- C4 counterexample: a record whose name contains `];` breaks
idempotence — the second run truncates the assignment at the `];` inside
the serialized string and leaves trailing garbage. -/
theorem inject_to_app_idempotent_cex :
    inject_to_app [[("Restaurant", JLit.jstr "x];y")]]
        (inject_to_app [[("Restaurant", JLit.jstr "x];y")]] "let appData = [];") ≠
      inject_to_app [[("Restaurant", JLit.jstr "x];y")]] "let appData = [];" := by
  decide

/-- C5: for a routing lookup with both coordinate pairs present, a 200
response with `code = "Ok"`, a nonempty route list and a (nonnegative)
duration of `d` seconds yields the whole-minute value `⌊d / 60⌋` and the
display `"N min"`; on any failure (no response/exception, non-200 status,
bad code, empty routes) or a missing coordinate pair the result is the
sentinel `999` with the unresolved marker `"N/A"`. -/
theorem get_walking_time_spec (s e : ℚ × ℚ) (resp : Option OsrmResponse) :
    (∀ r d ds, resp = some r → r.status = 200 → r.code = "Ok" → r.routes = d :: ds →
        0 ≤ d →
      get_walking_time (some s) (some e) resp =
        (toString ⌊d / 60⌋ ++ " min", ⌊d / 60⌋)) ∧
    ((resp = none ∨ ∃ r, resp = some r ∧
        (r.status ≠ 200 ∨ r.code ≠ "Ok" ∨ r.routes = [])) →
      get_walking_time (some s) (some e) resp = ("N/A", 999)) ∧
    (∀ (sc ec : Option (ℚ × ℚ)), sc = none ∨ ec = none →
      get_walking_time sc ec resp = ("N/A", 999)) := by
  refine ⟨?_, ?_, ?_⟩
  · rintro r d ds rfl hst hok hroutes hd
    have hfloor : pyInt (d / 60) = ⌊d / 60⌋ := by
      rw [pyInt, if_pos (by positivity)]
    simp [get_walking_time, hst, hok, hroutes, hfloor]
  · rintro (rfl | ⟨r, rfl, hcase⟩)
    · rfl
    · rcases hcase with hs | hc | hr
      · simp [get_walking_time, hs]
      · unfold get_walking_time
        by_cases hst : r.status = 200 <;> cases hroutes : r.routes <;>
          simp [hst, hroutes, hc]
      · unfold get_walking_time
        by_cases hst : r.status = 200 <;> simp [hst, hr]
  · rintro sc ec (rfl | rfl)
    · cases ec <;> rfl
    · cases sc <;> rfl

/-- C5 witness: a 210-second route yields `("3 min", 3)`; a failed lookup
yields the sentinel. -/
theorem get_walking_time_spec_witness :
    get_walking_time (some userCoords) (some (1, 2)) (some ⟨200, "Ok", [210]⟩)
        = ("3 min", 3) ∧
    get_walking_time (some userCoords) (some (1, 2)) none = ("N/A", 999) := by
  have h1 := (get_walking_time_spec userCoords (1, 2) (some ⟨200, "Ok", [210]⟩)).1
    ⟨200, "Ok", [210]⟩ 210 [] rfl rfl rfl rfl (by norm_num)
  have hfloor : (⌊(210 : ℚ) / 60⌋ : ℤ) = 3 := by norm_num
  rw [hfloor] at h1
  have hstr : (toString (3 : ℤ) ++ " min" : String) = "3 min" := by decide
  rw [hstr] at h1
  exact ⟨h1, (get_walking_time_spec userCoords (1, 2) none).2.1 (Or.inl rfl)⟩

/-- C6 (amended): if any candidate file's basename contains a recognized
keyword (case-insensitive), the file returned is the first such candidate
and the fallback is never taken (in particular, the returned file's name
contains a keyword); if no basename contains a keyword, the first
candidate whose lowered FULL PATH (directory part included) does not
contain `"mock"` is returned — the exclusion filters on the glob path,
not just the filename; if no candidate qualifies, the result is `none`. -/
theorem find_input_file_spec (cands : List String) :
    (∀ pre g post, cands = pre ++ g :: post →
      (∀ f ∈ pre, (containsSub "lunch" (pyLower (pyBasename f)) ||
          containsSub "export" (pyLower (pyBasename f))) = false) →
      (containsSub "lunch" (pyLower (pyBasename g)) ||
        containsSub "export" (pyLower (pyBasename g))) = true →
      find_input_file cands = some g) ∧
    ((∃ f ∈ cands, (containsSub "lunch" (pyLower (pyBasename f)) ||
        containsSub "export" (pyLower (pyBasename f))) = true) →
      ∃ g, find_input_file cands = some g ∧
        (containsSub "lunch" (pyLower (pyBasename g)) ||
         containsSub "export" (pyLower (pyBasename g))) = true) ∧
    (∀ pre g post, cands = pre ++ g :: post →
      (∀ f ∈ cands, (containsSub "lunch" (pyLower (pyBasename f)) ||
          containsSub "export" (pyLower (pyBasename f))) = false) →
      (∀ f ∈ pre, containsSub "mock" (pyLower f) = true) →
      containsSub "mock" (pyLower g) = false →
      find_input_file cands = some g) ∧
    ((∀ f ∈ cands, (containsSub "lunch" (pyLower (pyBasename f)) ||
        containsSub "export" (pyLower (pyBasename f))) = false) →
      (∀ f ∈ cands, containsSub "mock" (pyLower f) = true) →
      find_input_file cands = none) := by
  refine ⟨?_, ?_, ?_, ?_⟩
  · rintro pre g post rfl hpre hg
    unfold find_input_file
    rw [find?_eq_some_of_first pre g post hpre hg]
  · rintro ⟨f, hf, hp⟩
    have hsome : (cands.find? (fun f =>
        containsSub "lunch" (pyLower (pyBasename f)) ||
        containsSub "export" (pyLower (pyBasename f)))).isSome :=
      List.find?_isSome.mpr ⟨f, hf, hp⟩
    cases hfind : cands.find? (fun f =>
        containsSub "lunch" (pyLower (pyBasename f)) ||
        containsSub "export" (pyLower (pyBasename f))) with
    | none => rw [hfind] at hsome; simp at hsome
    | some g =>
      refine ⟨g, ?_, by simpa using List.find?_some hfind⟩
      unfold find_input_file
      rw [hfind]
  · rintro pre g post rfl hall hpremock hg
    have hnone : (pre ++ g :: post).find? (fun f =>
        containsSub "lunch" (pyLower (pyBasename f)) ||
        containsSub "export" (pyLower (pyBasename f))) = none :=
      List.find?_eq_none.mpr (fun f hf => by simp [hall f hf])
    unfold find_input_file
    rw [hnone]
    exact find?_eq_some_of_first pre g post
      (fun f hf => by simp [hpremock f hf]) (by simp [hg])
  · intro hall hmock
    have hnone : cands.find? (fun f =>
        containsSub "lunch" (pyLower (pyBasename f)) ||
        containsSub "export" (pyLower (pyBasename f))) = none :=
      List.find?_eq_none.mpr (fun f hf => by simp [hall f hf])
    have hnone2 : cands.find? (fun f => !containsSub "mock" (pyLower f)) = none :=
      List.find?_eq_none.mpr (fun f hf => by simp [hmock f hf])
    unfold find_input_file
    rw [hnone, hnone2]

/-- C6 witness: with an export file first and a mock file second, the
export file — the first keyword match — is selected. -/
theorem find_input_file_spec_witness :
    find_input_file ["/x/lunch_export.csv", "/x/mock_data.csv"]
        = some "/x/lunch_export.csv" :=
  (find_input_file_spec ["/x/lunch_export.csv", "/x/mock_data.csv"]).1
    [] "/x/lunch_export.csv" ["/x/mock_data.csv"] rfl (by simp) (by decide)

/-- C6 counterexample: a single candidate whose FILENAME does not contain
`"mock"` (and contains no keyword) sits in a directory whose path contains
`"mock"`; the claim says this file is returned, but the code's fallback
filters on the full path and returns `none`. -/
theorem find_input_file_mock_dir_cex :
    find_input_file ["/mock/data.csv"] = none ∧
    containsSub "mock" (pyLower (pyBasename "/mock/data.csv")) = false ∧
    (containsSub "lunch" (pyLower (pyBasename "/mock/data.csv")) ||
     containsSub "export" (pyLower (pyBasename "/mock/data.csv"))) = false := by
  refine ⟨?_, ?_, ?_⟩ <;> decide

/-- C7: when the template file is missing, or it lacks the loop start
marker or the loop end marker, rendering writes no output at all (the
model returns `none` exactly when `render_template` returns before the
output write). -/
theorem render_template_no_output (tmpl : Option String) (items : List EnrichedItem)
    (today : String)
    (h : tmpl = none ∨ ∃ t, tmpl = some t ∧
      (containsSub startTag t = false ∨ containsSub endTag t = false)) :
    render_template tmpl items today = none := by
  rcases h with rfl | ⟨t, rfl, hmiss⟩
  · rfl
  · unfold render_template
    rcases hmiss with hm | hm <;> simp [hm]

/-- C7 witness: a template without markers produces no output file. -/
theorem render_template_no_output_witness :
    render_template (some "no markers here") [] "2026-10-12" = none :=
  render_template_no_output (some "no markers here") [] "2026-10-12"
    (Or.inr ⟨"no markers here", rfl, Or.inl (by decide)⟩)

/-- C8: a 200 geocoding response whose first feature carries the
coordinate pair `[lon, lat]` is stored in standard order: the local-mode
helper returns `(lat, lon)` and the scrape-mode record gets
`lat`/`lon` from indices 1 and 0 respectively. -/
theorem geocode_latlon_swap (b : GeoBody) (f : GeoFeature) (fs : List GeoFeature)
    (lon lat : ℚ) (more : List ℚ) (nm ad pz ort ws : String)
    (hb : b.features = f :: fs) (hc : f.coordinates = lon :: lat :: more) :
    geocode_address (GeoOutcome.resp 200 (some b)) = (some lat, some lon) ∧
    (scrapeGeo (mkScrapeItem nm ad pz ort ws) (GeoOutcome.resp 200 (some b))).lat
        = some lat ∧
    (scrapeGeo (mkScrapeItem nm ad pz ort ws) (GeoOutcome.resp 200 (some b))).lon
        = some lon := by
  refine ⟨?_, ?_, ?_⟩ <;> simp [geocode_address, scrapeGeo, hb, hc]

/-- C8 witness: the pair `[8, 47]` (longitude first) is stored as
latitude 47, longitude 8. -/
theorem geocode_latlon_swap_witness :
    geocode_address (GeoOutcome.resp 200 (some ⟨[⟨[8, 47], none, none⟩]⟩))
        = (some 47, some 8) ∧
    (scrapeGeo (mkScrapeItem "n" "a" "p" "o" "w")
        (GeoOutcome.resp 200 (some ⟨[⟨[8, 47], none, none⟩]⟩))).lat = some 47 := by
  have h := geocode_latlon_swap ⟨[⟨[8, 47], none, none⟩]⟩ ⟨[8, 47], none, none⟩ []
    8 47 [] "n" "a" "p" "o" "w" rfl rfl
  exact ⟨h.1, h.2.1⟩

/-- C9: every record produced in remote-scrape mode has
`walkingTime = 999`, whatever the geocoding outcome — the scrape path
initialises the sentinel and never performs a routing lookup, so no
enrichment step ever writes an actual walking duration. -/
theorem scrape_walkingTime_always_sentinel (names addrs zips cities urls : List String)
    (geo : Nat → GeoOutcome) (it : ScrapeItem)
    (hmem : it ∈ scrape_extract names addrs zips cities urls geo) :
    it.walkingTime = 999 := by
  simp only [scrape_extract, List.mem_map] at hmem
  obtain ⟨i, _, rfl⟩ := hmem
  rw [scrapeGeo_walkingTime]
  rfl

/-- C9 witness: a concrete scraped record (geocoding failed) carries the
sentinel. -/
theorem scrape_walkingTime_always_sentinel_witness :
    (⟨"a", "b", "c", "d", "", some "International", none, none, 999⟩ : ScrapeItem) ∈
      scrape_extract ["a"] ["b"] ["c"] ["d"] [] (fun _ => GeoOutcome.err) ∧
    (⟨"a", "b", "c", "d", "", some "International", none, none, 999⟩ :
        ScrapeItem).walkingTime = 999 :=
  ⟨by decide, scrape_walkingTime_always_sentinel ["a"] ["b"] ["c"] ["d"] []
    (fun _ => GeoOutcome.err) _ (by decide)⟩

/-- C10: when the parsed CSV has more than 50 data rows, only the first
50 are enriched and rendered (`items[:LIMIT]` with `LIMIT = 50`); rows
past the 50th are dropped before enrichment, and the rendered
`items_count` placeholder reflects the truncated count `50`. -/
theorem local_limit_truncates (evs : List CsvEvent) (g : Nat → GeoOutcome)
    (o : Nat → Option OsrmResponse) (today : String)
    (h : 50 < (read_csv evs).length) :
    (mainProcess evs g o).length = 50 ∧
    mainProcess evs g o =
      ((read_csv evs).take 50).mapIdx (fun i r => localEnrich r (g i) (o i)) ∧
    render_template (some (startTag ++ endTag ++ "\x7b\x7b items_count \x7d\x7d"))
        (mainProcess evs g o) today = some "50" := by
  have hlen : (mainProcess evs g o).length = 50 := by
    unfold mainProcess LIMIT
    rw [List.length_mapIdx, List.length_take]
    omega
  refine ⟨hlen, rfl, ?_⟩
  rw [render_count_template, hlen]
  rfl

/-- C10 witness: a 51-row input is truncated to 50 enriched rows. -/
theorem local_limit_truncates_witness :
    50 < (read_csv (List.replicate 51 (CsvEvent.row [("Restaurant", "A")]))).length ∧
    (mainProcess (List.replicate 51 (CsvEvent.row [("Restaurant", "A")]))
        (fun _ => GeoOutcome.err) (fun _ => none)).length = 50 :=
  ⟨by decide, (local_limit_truncates (List.replicate 51 (CsvEvent.row [("Restaurant", "A")]))
    (fun _ => GeoOutcome.err) (fun _ => none) "2026-10-12" (by decide)).1⟩

end LunchCheck
